import Mathlib

/-!
Shallow embedding of `scripts/parse_unpriv_logs.py` (neurodesk/builder).

Lines are modelled as `List Char`.  Python string builtins used by the
script (`lstrip`, `rstrip`, `strip`, `startswith`, `split(sep, 1)`,
`lower`, `in`, `int(...)`, slicing, `"\n".join`) are given explicit
executable definitions below, and each function of the script is
translated into a Lean function of the same name.  The test-record
`while` loop with its inner lookahead loop is translated as a single
left-to-right recursion carrying the pending failed record as explicit
state (`runTests`); the state `some (base, acc)` corresponds to the
Python control point inside the `lookahead` loop with `output_lines =
acc`, and the terminating line of the inner loop is processed by the
outer loop exactly as in the source (`idx = lookahead - 1; idx += 1`).
-/

/-! ### Python string primitives -/

def isPySpace (c : Char) : Bool :=
  c == ' ' || c == '\t' || c == '\n' || c == '\r' || c == '\x0b' || c == '\x0c'

def pyLstrip (s : List Char) : List Char :=
  s.dropWhile isPySpace

def pyRstrip (s : List Char) : List Char :=
  (s.reverse.dropWhile isPySpace).reverse

def pyStrip (s : List Char) : List Char :=
  pyRstrip (pyLstrip s)

def pyLower (s : List Char) : List Char :=
  s.map Char.toLower

/-- Python `s.startswith(p)` for a single pattern. -/
def startsWith (p s : List Char) : Bool :=
  p.isPrefixOf s

/-- Python `s.startswith(tuple_of_patterns)`. -/
def startsWithAny (ps : List (List Char)) (s : List Char) : Bool :=
  ps.any (fun p => startsWith p s)

/-- Python substring containment `needle in hay`. -/
def containsSub (needle : List Char) : List Char → Bool
  | [] => needle.isEmpty
  | c :: rest => startsWith needle (c :: rest) || containsSub needle rest

/-- Python `s.split(sep, 1)` when `sep` occurs: the pieces before and after
the first occurrence of `sep`.  Used with two-character separator `": "`. -/
def splitOnceSub (sep : List Char) : List Char → Option (List Char × List Char)
  | [] => if sep.isEmpty then some ([], []) else none
  | c :: rest =>
    if sep.isPrefixOf (c :: rest) then some ([], (c :: rest).drop sep.length)
    else (splitOnceSub sep rest).map (fun p => (c :: p.1, p.2))

/-- Python `s.split(":", 1)` assuming `":" in s` (the only way it is used). -/
def splitFirstColon : List Char → List Char × List Char
  | [] => ([], [])
  | c :: rest =>
    if c = ':' then ([], rest)
    else
      let p := splitFirstColon rest
      (c :: p.1, p.2)

/-- Python `s.rstrip(":")`. -/
def rstripColons (s : List Char) : List Char :=
  (s.reverse.dropWhile (fun c => c == ':')).reverse

/-- Python `"\n".join(pieces)`. -/
def joinNL (pieces : List (List Char)) : List Char :=
  List.intercalate ['\n'] pieces

def digitVal (c : Char) : Nat := c.toNat - 48

/-- Digit tail of a Python integer literal: digits with single underscores
allowed between digits. -/
def pyDigitsVal (acc : Nat) : List Char → Option Nat
  | [] => some acc
  | '_' :: c :: rest =>
    if c.isDigit then pyDigitsVal (acc * 10 + digitVal c) rest else none
  | c :: rest =>
    if c.isDigit then pyDigitsVal (acc * 10 + digitVal c) rest else none

def pyIntDigits : List Char → Option Nat
  | [] => none
  | c :: rest => if c.isDigit then pyDigitsVal (digitVal c) rest else none

/-- Python `int(s)` on an already-stripped string: optional sign, then a
nonempty digit sequence (underscores between digits allowed); `none` when
`int` would raise `ValueError`. -/
def pyInt? (s : List Char) : Option Int :=
  match s with
  | '+' :: rest => (pyIntDigits rest).map (fun n => (n : Int))
  | '-' :: rest => (pyIntDigits rest).map (fun n => -(n : Int))
  | _ => (pyIntDigits s).map (fun n => (n : Int))

/-! ### Module-level constants of the script -/

def testMarkers : List Char := ['✓', '✗', '⊝']

def sectionBoundaries : List (List Char) :=
  ["Test Results for".toList, "Detailed Results:".toList, "##[".toList,
   "[command]".toList, "Post job cleanup".toList, "shell:".toList,
   "env:".toList, "Running test:".toList, "Running builtin test:".toList,
   "Using container runtime".toList, "Found container".toList]

def failureKeywords : List (List Char) :=
  ["error".toList, "failed".toList, "exception".toList, "traceback".toList,
   "abort".toList, "denied".toList]

def noisePrefixes : List (List Char) :=
  ["[command]".toList, "Post job cleanup".toList, "Temporary overriding".toList,
   "Adding repository directory".toList, "Cleaning up".toList,
   "shell:".toList, "env:".toList]

def MAX_OUTPUT_CHARS : Nat := 4000

def hdrMarker : List Char := "Test Results for".toList

def detailedMarker : List Char := "Detailed Results:".toList

def errMarker : List Char := "##[error]".toList

/-! ### `strip_timestamp` (the regex `TIMESTAMP_RE` is modelled as the
deterministic matcher it denotes: `^\d{4}-\d{2}-\d{2}T\d{2}:\d{2}:\d{2}
(?:\.\d+)?Z\s*`, substituted once at the start of the line). -/

def removeBOM (s : List Char) : List Char :=
  s.filter (fun c => c != '\uFEFF')

def takeDigitsN : Nat → List Char → Option (List Char)
  | 0, s => some s
  | _ + 1, [] => none
  | n + 1, c :: rest => if c.isDigit then takeDigitsN n rest else none

def expectChar (c : Char) : List Char → Option (List Char)
  | [] => none
  | x :: rest => if x = c then some rest else none

/-- The `(?:\.\d+)?Z` tail of the timestamp pattern: a greedy optional
fraction (which, when the dot is present, must be followed by `Z` or the
whole pattern fails, as backtracking cannot recover), then `Z`. -/
def matchFracZ : List Char → Option (List Char)
  | [] => none
  | c :: rest =>
    if c = '.' then
      let ds := rest.takeWhile Char.isDigit
      if ds.isEmpty then none
      else
        match rest.drop ds.length with
        | [] => none
        | z :: r => if z = 'Z' then some r else none
    else if c = 'Z' then some rest
    else none

/-- Match the leading timestamp (including the trailing `\s*`); returns the
remainder of the line on success. -/
def matchTimestamp (s : List Char) : Option (List Char) :=
  ((((((((((takeDigitsN 4 s).bind (expectChar '-')).bind
    (takeDigitsN 2)).bind (expectChar '-')).bind
    (takeDigitsN 2)).bind (expectChar 'T')).bind
    (takeDigitsN 2)).bind (expectChar ':')).bind
    (takeDigitsN 2)).bind (expectChar ':')).bind
    (takeDigitsN 2) |>.bind matchFracZ |>.map (fun r => r.dropWhile isPySpace)

/-- Function `strip_timestamp` from the script: remove the BOM everywhere, strip one
leading timestamp if present, and strip trailing whitespace. -/
def strip_timestamp (line : List Char) : List Char :=
  match matchTimestamp (removeBOM line) with
  | some r => pyRstrip r
  | none => pyRstrip (removeBOM line)

/-! ### `clamp_text` -/

def clamp_text (text : List Char) (limit : Nat) : List Char :=
  if text.length ≤ limit then text
  else
    let truncated := pyRstrip (text.take limit)
    let remainder := text.length - limit
    truncated ++ '\n' :: ("... (truncated, ".toList ++
      (Nat.repr remainder).toList ++ " more characters)".toList)

/-! ### Summary values and the insertion-ordered dict -/

inductive SVal where
  | int : Int → SVal
  | str : List Char → SVal
deriving DecidableEq, Repr

def intOrStr (v : List Char) : SVal :=
  match pyInt? v with
  | some n => SVal.int n
  | none => SVal.str v

def svalRepr : SVal → List Char
  | SVal.int n => (toString n).toList
  | SVal.str s => s

/-- Python `d[k] = v` on an insertion-ordered dict. -/
def dictInsert (d : List (List Char × SVal)) (k : List Char) (v : SVal) :
    List (List Char × SVal) :=
  match d with
  | [] => [(k, v)]
  | (k0, v0) :: rest =>
    if k0 = k then (k0, v) :: rest else (k0, v0) :: dictInsert rest k v

/-- Python `d.get(k)` (defaulting to `None`). -/
def dictGet (d : List (List Char × SVal)) (k : List Char) : Option SVal :=
  (d.find? (fun p => p.1 = k)).map (fun p => p.2)

/-! ### `parse_test_blocks` -/

structure TestRecord where
  name : List Char
  status : List Char
  note : Option (List Char)
  output : Option (List Char)
deriving DecidableEq, Repr

def failedStr : List Char := "failed".toList

def statusOf (c : Char) : List Char :=
  if c = '✓' then "passed".toList
  else if c = '✗' then failedStr
  else if c = '⊝' then "skipped".toList
  else "unknown".toList

/-- Build the record for a test line whose first character is the marker `c`
and whose remaining characters are `restChars` (lines 115-126 of the
script); the `output` field is attached later. -/
def mkRecord (c : Char) (restChars : List Char) : TestRecord :=
  let rest := pyStrip restChars
  let status := statusOf c
  match splitOnceSub [':', ' '] rest with
  | some (namePart, statusPart) =>
    let note := pyStrip statusPart
    { name := pyStrip namePart, status := status,
      note := if note ≠ [] ∧ pyLower note ≠ status then some note else none,
      output := none }
  | none =>
    { name := rest, status := status, note := none, output := none }

/-- Attach the collected lookahead output to a failed record
(lines 142-143: only a nonempty collection yields an `output` field). -/
def finalizeRec (base : TestRecord) (acc : List (List Char)) : TestRecord :=
  if acc ≠ [] then
    { base with output := some (clamp_text (pyStrip (joinNL acc)) MAX_OUTPUT_CHARS) }
  else base

/-- The test-record loop (lines 105-147).  State `none` is the outer loop;
state `some (base, acc)` is the inner `lookahead` loop collecting
`output_lines = acc` for the pending failed record `base`.  The pair
returned is `(tests, failures)`. -/
def runTests (st : Option (TestRecord × List (List Char))) :
    List (List Char) → List TestRecord × List TestRecord
  | [] =>
    match st with
    | none => ([], [])
    | some (base, acc) =>
      let rec0 := finalizeRec base acc
      ([rec0], [rec0])
  | raw :: rest =>
    match st with
    | none =>
      match pyLstrip raw with
      | [] => runTests none rest
      | c :: tl =>
        if startsWithAny sectionBoundaries (c :: tl) then ([], [])
        else if c ∈ testMarkers then
          let base := mkRecord c tl
          if base.status = failedStr then runTests (some (base, [])) rest
          else
            let next := runTests none rest
            (base :: next.1, next.2)
        else runTests none rest
    | some (base, acc) =>
      match pyLstrip raw with
      | [] => runTests (some (base, acc ++ [[]])) rest
      | c :: tl =>
        if startsWithAny sectionBoundaries (c :: tl) then
          let rec0 := finalizeRec base acc
          ([rec0], [rec0])
        else if c ∈ testMarkers then
          let rec0 := finalizeRec base acc
          let newBase := mkRecord c tl
          if newBase.status = failedStr then
            let next := runTests (some (newBase, [])) rest
            (rec0 :: next.1, rec0 :: next.2)
          else
            let next := runTests none rest
            (rec0 :: newBase :: next.1, rec0 :: next.2)
        else runTests (some (base, acc ++ [c :: tl])) rest

/-- The summary-table loop (lines 83-103).  Returns the summary dict and
the messages still to be consumed by the test-record loop. -/
def parseSummary : List (List Char) → List (List Char × SVal) →
    List (List Char × SVal) × List (List Char)
  | [], acc => (acc, [])
  | raw :: rest, acc =>
    let msg := pyLstrip raw
    if msg = [] then parseSummary rest acc
    else if startsWith detailedMarker msg then (acc, rest)
    else if ':' ∈ msg then
      let p := splitFirstColon msg
      let key := pyLower (pyStrip p.1)
      let value := pyStrip p.2
      parseSummary rest (dictInsert acc key (intOrStr value))
    else (acc, raw :: rest)

structure TBResult where
  test_target : Option (List Char)
  test_summary : Option (List (List Char × SVal))
  tests : Option (List TestRecord)
  failures : Option (List TestRecord)
deriving DecidableEq, Repr

def emptyTB : TBResult := ⟨none, none, none, none⟩

/-- Lines 77-158 of the script: everything after the chosen header line. -/
def parseFrom (headerLine : List Char) (after : List (List Char)) : TBResult :=
  let container_line := pyLstrip headerLine
  let container := rstripColons (pyStrip (container_line.drop hdrMarker.length))
  let sres := parseSummary after []
  let tres := runTests none sres.2
  { test_target := if container ≠ [] then some container else none,
    test_summary := if sres.1 ≠ [] then some sres.1 else none,
    tests := if tres.1 ≠ [] then some tres.1 else none,
    failures := if tres.2 ≠ [] then some tres.2 else none }

/-- The header-search loop (lines 70-73): index of the last line whose
left-stripped text starts with `Test Results for`. -/
def lastHeaderIdxAux (k : Nat) (acc : Option Nat) : List (List Char) → Option Nat
  | [] => acc
  | m :: rest =>
    lastHeaderIdxAux (k + 1)
      (if startsWith hdrMarker (pyLstrip m) then some k else acc) rest

def parse_test_blocks (messages : List (List Char)) : TBResult :=
  match lastHeaderIdxAux 0 none messages with
  | none => emptyTB
  | some i => parseFrom (messages.getD i []) (messages.drop (i + 1))

/-! ### `parse_log` pieces: status and reasons -/

/-- Line 207: `[idx for idx, msg in enumerate(messages) if
msg.startswith("##[error]")]`, with `k` the index of the list head. -/
def errorIndicesFrom (k : Nat) : List (List Char) → List Nat
  | [] => []
  | m :: rest =>
    if startsWith errMarker m then k :: errorIndicesFrom (k + 1) rest
    else errorIndicesFrom (k + 1) rest

def errorIndices (messages : List (List Char)) : List Nat :=
  errorIndicesFrom 0 messages

/-- Line 208: `status = "failed" if error_indices else "succeeded"`. -/
def computeStatus (messages : List (List Char)) : List Char :=
  if errorIndices messages ≠ [] then failedStr else "succeeded".toList

/-- Function `collect_failure_context` of the script (lines 161-181). -/
def collect_failure_context (messages : List (List Char))
    (error_indices : List Nat) : Option (List Char × List Char) :=
  match error_indices with
  | [] => none
  | idx :: _ =>
    let context := ((messages.take idx).drop (idx - 30)).filter
      (fun m => !m.isEmpty && !startsWithAny noisePrefixes m)
    if context.isEmpty then none
    else
      let trimmed := context.drop (context.length - 20)
      let reason := ((trimmed.reverse.find? (fun l =>
        failureKeywords.any (fun k => containsSub k (pyLower l)))).getD
        (trimmed.getLastD []))
      some (reason, clamp_text (pyStrip (joinNL trimmed)) MAX_OUTPUT_CHARS)

/-- The `status == "succeeded"` branch of `parse_log` (lines 215-229),
deriving the entry's `reason` from the test-block result. -/
def succeededReason (ti : TBResult) : List Char :=
  let summary := ti.test_summary.getD []
  if summary ≠ [] ∧ dictGet summary "failed".toList = some (SVal.int 0) then
    match dictGet summary "total".toList, dictGet summary "passed".toList with
    | some t, some p =>
      "All tests passed (".toList ++ svalRepr p ++ " of ".toList ++
        svalRepr t ++ ").".toList
    | none, some p =>
      "All tests passed (".toList ++ svalRepr p ++ ").".toList
    | _, _ => "All tests passed.".toList
  else if ti.tests.getD [] ≠ [] then
    "All tests completed without failures.".toList
  else
    "Completed without reported failures.".toList

/-- Invariant of the `runTests` state: a pending lookahead record is always
a failed record (the inner loop is entered only under `status == "failed"`). -/
def pendingOK : Option (TestRecord × List (List Char)) → Prop
  | none => True
  | some p => p.1.status = failedStr

/-! ### Helper lemmas -/

theorem pyRstrip_subset (s : List Char) : pyRstrip s ⊆ s := by
  intro c hc
  unfold pyRstrip at hc
  rw [List.mem_reverse] at hc
  have h2 : c ∈ s.reverse := (List.dropWhile_sublist _).subset hc
  rwa [List.mem_reverse] at h2

theorem removeBOM_not_bom (line : List Char) (c : Char)
    (hc : c ∈ removeBOM line) : c ≠ '﻿' := by
  unfold removeBOM at hc
  have := (List.mem_filter.mp hc).2
  simpa using this

theorem takeDigitsN_subset (n : Nat) (s r : List Char)
    (h : takeDigitsN n s = some r) : r ⊆ s := by
  induction n generalizing s with
  | zero =>
    simp only [takeDigitsN] at h
    injection h with h
    subst h
    exact List.Subset.refl _
  | succ n ih =>
    cases s with
    | nil => simp [takeDigitsN] at h
    | cons c rest =>
      simp only [takeDigitsN] at h
      split at h
      · exact (ih rest h).trans (List.subset_cons_self c rest)
      · simp at h

theorem expectChar_subset (c : Char) (s r : List Char)
    (h : expectChar c s = some r) : r ⊆ s := by
  cases s with
  | nil => simp [expectChar] at h
  | cons x rest =>
    simp only [expectChar] at h
    split at h
    · injection h with h
      exact h ▸ List.subset_cons_self x rest
    · simp at h

theorem matchFracZ_subset (s r : List Char) (h : matchFracZ s = some r) :
    r ⊆ s := by
  cases s with
  | nil => simp [matchFracZ] at h
  | cons c rest =>
    simp only [matchFracZ] at h
    split at h
    · split at h
      · simp at h
      · split at h
        · simp at h
        · rename_i z r' hdr
          split at h
          · injection h with h
            have h2 : z :: r' ⊆ rest := hdr ▸ List.drop_subset _ rest
            exact h ▸ (((List.subset_cons_self z r').trans h2).trans
              (List.subset_cons_self c rest))
          · simp at h
    · split at h
      · injection h with h
        exact h ▸ List.subset_cons_self c rest
      · simp at h

theorem matchTimestamp_subset (s r : List Char)
    (h : matchTimestamp s = some r) : r ⊆ s := by
  unfold matchTimestamp at h
  obtain ⟨a12, ha, rfl⟩ := Option.map_eq_some'.mp h
  obtain ⟨a11, hb, h12⟩ := Option.bind_eq_some.mp ha
  obtain ⟨a10, hb, h11⟩ := Option.bind_eq_some.mp hb
  obtain ⟨a9, hb, h10⟩ := Option.bind_eq_some.mp hb
  obtain ⟨a8, hb, h9⟩ := Option.bind_eq_some.mp hb
  obtain ⟨a7, hb, h8⟩ := Option.bind_eq_some.mp hb
  obtain ⟨a6, hb, h7⟩ := Option.bind_eq_some.mp hb
  obtain ⟨a5, hb, h6⟩ := Option.bind_eq_some.mp hb
  obtain ⟨a4, hb, h5⟩ := Option.bind_eq_some.mp hb
  obtain ⟨a3, hb, h4⟩ := Option.bind_eq_some.mp hb
  obtain ⟨a2, hb, h3⟩ := Option.bind_eq_some.mp hb
  obtain ⟨a1, h1, h2⟩ := Option.bind_eq_some.mp hb
  have s1 := takeDigitsN_subset _ _ _ h1
  have s2 := expectChar_subset _ _ _ h2
  have s3 := takeDigitsN_subset _ _ _ h3
  have s4 := expectChar_subset _ _ _ h4
  have s5 := takeDigitsN_subset _ _ _ h5
  have s6 := expectChar_subset _ _ _ h6
  have s7 := takeDigitsN_subset _ _ _ h7
  have s8 := expectChar_subset _ _ _ h8
  have s9 := takeDigitsN_subset _ _ _ h9
  have s10 := expectChar_subset _ _ _ h10
  have s11 := takeDigitsN_subset _ _ _ h11
  have s12 := matchFracZ_subset _ _ h12
  have s13 : List.dropWhile isPySpace a12 ⊆ a12 :=
    (List.dropWhile_sublist _).subset
  exact s13.trans (s12.trans (s11.trans (s10.trans (s9.trans (s8.trans
    (s7.trans (s6.trans (s5.trans (s4.trans (s3.trans (s2.trans s1)))))))))))

theorem errorIndicesFrom_eq_nil (l : List (List Char)) :
    ∀ k, errorIndicesFrom k l = [] ↔ ∀ m ∈ l, startsWith errMarker m = false := by
  induction l with
  | nil => intro k; simp [errorIndicesFrom]
  | cons m rest ih =>
    intro k
    by_cases h : startsWith errMarker m
    · simp [errorIndicesFrom, h]
    · simp only [Bool.not_eq_true] at h
      simp [errorIndicesFrom, h, ih]

/-! ### Claim theorems -/

/-- C5: `clamp_text` returns the text unchanged when its length is at most
the limit; otherwise it returns the first `limit` characters with trailing
whitespace removed, followed by a newline and the truncation marker naming
exactly `length - limit` omitted characters. -/
theorem c5_clamp_contract (text : List Char) (limit : Nat) :
    (text.length ≤ limit → clamp_text text limit = text) ∧
    (limit < text.length →
      clamp_text text limit = pyRstrip (text.take limit) ++ '\n' ::
        ("... (truncated, ".toList ++ (Nat.repr (text.length - limit)).toList ++
          " more characters)".toList)) := by
  constructor
  · intro h
    unfold clamp_text
    rw [if_pos h]
  · intro h
    unfold clamp_text
    rw [if_neg (by omega)]

theorem c5_clamp_contract_witness :
    clamp_text "ab".toList 5 = "ab".toList ∧
    clamp_text "abcdef".toList 3 = pyRstrip ("abcdef".toList.take 3) ++ '\n' ::
      ("... (truncated, ".toList ++
        (Nat.repr ("abcdef".toList.length - 3)).toList ++
        " more characters)".toList) :=
  ⟨(c5_clamp_contract "ab".toList 5).1 (by decide),
   (c5_clamp_contract "abcdef".toList 3).2 (by decide)⟩

/-- C8: the Line Normalizer removes every byte-order mark, strips at most
one leading timestamp token (with its trailing whitespace), and strips
trailing whitespace: the example line normalizes to "Hello"; a line with no
leading timestamp is only BOM-filtered and right-trimmed; a line with one
is right-trimmed from the remainder after the token; and no byte-order mark
survives normalization. -/
theorem c8_strip_timestamp :
    strip_timestamp "2024-01-01T00:00:00Z Hello".toList = "Hello".toList ∧
    (∀ line, matchTimestamp (removeBOM line) = none →
      strip_timestamp line = pyRstrip (removeBOM line)) ∧
    (∀ line r, matchTimestamp (removeBOM line) = some r →
      strip_timestamp line = pyRstrip r) ∧
    (∀ line c, c ∈ strip_timestamp line → c ≠ '﻿') := by
  refine ⟨by decide, ?_, ?_, ?_⟩
  · intro line h
    unfold strip_timestamp
    rw [h]
  · intro line r h
    unfold strip_timestamp
    rw [h]
  · intro line c hc
    unfold strip_timestamp at hc
    cases h : matchTimestamp (removeBOM line) with
    | none =>
      rw [h] at hc
      exact removeBOM_not_bom line c (pyRstrip_subset _ hc)
    | some r =>
      rw [h] at hc
      have h1 : c ∈ r := pyRstrip_subset _ hc
      exact removeBOM_not_bom line c (matchTimestamp_subset _ _ h h1)

theorem c8_strip_timestamp_witness :
    (matchTimestamp (removeBOM "abc  ".toList) = none ∧
      strip_timestamp "abc  ".toList = pyRstrip (removeBOM "abc  ".toList)) ∧
    (matchTimestamp (removeBOM "2024-01-01T00:00:00.5Z  x".toList) =
        some "x".toList ∧
      strip_timestamp "2024-01-01T00:00:00.5Z  x".toList =
        pyRstrip "x".toList) ∧
    ('H' ∈ strip_timestamp "2024-01-01T00:00:00Z Hello".toList ∧ 'H' ≠ '﻿') :=
  ⟨⟨by decide, c8_strip_timestamp.2.1 "abc  ".toList (by decide)⟩,
   ⟨by decide, c8_strip_timestamp.2.2.1 "2024-01-01T00:00:00.5Z  x".toList
      "x".toList (by decide)⟩,
   ⟨by decide, c8_strip_timestamp.2.2.2 "2024-01-01T00:00:00Z Hello".toList 'H'
      (by decide)⟩⟩

/-- C2 counterexample: the claim says the error marker is recognized after
left-stripping indentation, but the script tests `msg.startswith("##[error]")`
on the unindented message itself: a message consisting of the marker behind
one leading space left-strips to a marker line, yet the status computed by
the script is "succeeded". -/
theorem c2_counterexample :
    ¬ (computeStatus [" ##[error] boom".toList] = failedStr ↔
        ∃ m ∈ [" ##[error] boom".toList],
          startsWith errMarker (pyLstrip m) = true) := by
  decide

/-- C2 (amended): `status` is "failed" iff some normalized message starts
with `##[error]` directly, without left-stripping; otherwise it is
"succeeded". -/
theorem c2_status_iff (messages : List (List Char)) :
    computeStatus messages = failedStr ↔
      ∃ m ∈ messages, startsWith errMarker m = true := by
  unfold computeStatus
  by_cases h : errorIndices messages = []
  · rw [if_neg (by simpa using h)]
    constructor
    · intro hs
      exact absurd hs (by decide)
    · intro ⟨m, hm, hsw⟩
      have := ((errorIndicesFrom_eq_nil messages 0).mp h) m hm
      rw [this] at hsw
      exact absurd hsw (by decide)
  · rw [if_pos h]
    constructor
    · intro _
      by_contra hne
      push_neg at hne
      exact h ((errorIndicesFrom_eq_nil messages 0).mpr
        (fun m hm => by
          have := hne m hm
          simpa using this))
    · intro _
      rfl

theorem finalizeRec_status (b : TestRecord) (a : List (List Char)) :
    (finalizeRec b a).status = b.status := by
  unfold finalizeRec
  split <;> rfl

theorem mkRecord_output (c : Char) (tl : List Char) :
    (mkRecord c tl).output = none := by
  unfold mkRecord
  cases h : splitOnceSub [':', ' '] (pyStrip tl) with
  | none => simp [h]
  | some p =>
    obtain ⟨a, b⟩ := p
    simp [h]

/-- Core invariant behind C10: along the test-record loop, the failures
list is the failed-status filter of the tests list. -/
theorem runTests_failures_filter :
    ∀ (st : Option (TestRecord × List (List Char))) (l : List (List Char)),
      pendingOK st →
      (runTests st l).2 = (runTests st l).1.filter
        (fun r => r.status = failedStr) := by
  intro st l
  induction st, l using runTests.induct with
  | case1 => intro _; simp [runTests]
  | case2 base acc =>
    intro hp
    have hb : base.status = failedStr := hp
    simp [runTests, List.filter_cons, finalizeRec_status, hb]
  | case3 raw rest hm ih =>
    intro _
    simpa [runTests, hm] using ih trivial
  | case4 raw rest c tl hm hb =>
    intro _
    simp [runTests, hm, hb]
  | case5 raw rest c tl hm hb hc base hst ih =>
    intro _
    simp only [runTests, hm]
    rw [if_neg hb, if_pos hc, if_pos hst]
    exact ih hst
  | case6 raw rest c tl hm hb hc base hst ih =>
    intro _
    simp only [runTests, hm]
    rw [if_neg hb, if_pos hc, if_neg hst]
    have h2 := ih trivial
    simp [List.filter_cons, hst, h2]
  | case7 raw rest c tl hm hb hc ih =>
    intro _
    simp only [runTests, hm]
    rw [if_neg hb, if_neg hc]
    exact ih trivial
  | case8 raw rest base acc hm ih =>
    intro hp
    simpa [runTests, hm] using ih hp
  | case9 raw rest base acc c tl hm hb =>
    intro hp
    have hfb : base.status = failedStr := hp
    simp only [runTests, hm]
    rw [if_pos hb]
    simp [List.filter_cons, finalizeRec_status, hfb]
  | case10 raw rest base acc c tl hm hb hc newBase hst ih =>
    intro hp
    have hfb : base.status = failedStr := hp
    simp only [runTests, hm]
    rw [if_neg hb, if_pos hc, if_pos hst]
    have h2 := ih hst
    simp [List.filter_cons, finalizeRec_status, hfb, h2]
  | case11 raw rest base acc c tl hm hb hc newBase hst ih =>
    intro hp
    have hfb : base.status = failedStr := hp
    simp only [runTests, hm]
    rw [if_neg hb, if_pos hc, if_neg hst]
    have h2 := ih trivial
    simp [List.filter_cons, finalizeRec_status, hfb, hst, h2]
  | case12 raw rest base acc c tl hm hb hc ih =>
    intro hp
    simp only [runTests, hm]
    rw [if_neg hb, if_neg hc]
    exact ih hp

/-- Core invariant behind C9: every record in the tests list that carries
an `output` field has status "failed". -/
theorem runTests_output_failed :
    ∀ (st : Option (TestRecord × List (List Char))) (l : List (List Char)),
      pendingOK st →
      ∀ r ∈ (runTests st l).1, r.output ≠ none → r.status = failedStr := by
  intro st l
  induction st, l using runTests.induct with
  | case1 => intro _ r hr; simp [runTests] at hr
  | case2 base acc =>
    intro hp r hr _
    have hb : base.status = failedStr := hp
    simp only [runTests, List.mem_singleton] at hr
    rw [hr, finalizeRec_status]
    exact hb
  | case3 raw rest hm ih =>
    intro _ r hr
    rw [show runTests none (raw :: rest) = runTests none rest by
      simp [runTests, hm]] at hr
    exact ih trivial r hr
  | case4 raw rest c tl hm hb =>
    intro _ r hr
    rw [show runTests none (raw :: rest) = ([], []) by
      simp only [runTests, hm]; rw [if_pos hb]] at hr
    simp at hr
  | case5 raw rest c tl hm hb hc base hst ih =>
    intro _ r hr
    rw [show runTests none (raw :: rest) = runTests (some (base, [])) rest by
      simp only [runTests, hm]; rw [if_neg hb, if_pos hc, if_pos hst]] at hr
    exact ih hst r hr
  | case6 raw rest c tl hm hb hc base hst ih =>
    intro _ r hr ho
    rw [show runTests none (raw :: rest) =
        (base :: (runTests none rest).1, (runTests none rest).2) by
      simp only [runTests, hm]; rw [if_neg hb, if_pos hc, if_neg hst]] at hr
    rcases List.mem_cons.mp hr with h | h
    · exact absurd (h ▸ mkRecord_output c tl) ho
    · exact ih trivial r h ho
  | case7 raw rest c tl hm hb hc ih =>
    intro _ r hr
    rw [show runTests none (raw :: rest) = runTests none rest by
      simp only [runTests, hm]; rw [if_neg hb, if_neg hc]] at hr
    exact ih trivial r hr
  | case8 raw rest base acc hm ih =>
    intro hp r hr
    rw [show runTests (some (base, acc)) (raw :: rest) =
        runTests (some (base, acc ++ [[]])) rest by
      simp [runTests, hm]] at hr
    exact ih hp r hr
  | case9 raw rest base acc c tl hm hb =>
    intro hp r hr _
    have hfb : base.status = failedStr := hp
    rw [show runTests (some (base, acc)) (raw :: rest) =
        ([finalizeRec base acc], [finalizeRec base acc]) by
      simp only [runTests, hm]; rw [if_pos hb]] at hr
    simp only [List.mem_singleton] at hr
    rw [hr, finalizeRec_status]
    exact hfb
  | case10 raw rest base acc c tl hm hb hc newBase hst ih =>
    intro hp r hr ho
    have hfb : base.status = failedStr := hp
    rw [show runTests (some (base, acc)) (raw :: rest) =
        (finalizeRec base acc :: (runTests (some (newBase, [])) rest).1,
         finalizeRec base acc :: (runTests (some (newBase, [])) rest).2) by
      simp only [runTests, hm]; rw [if_neg hb, if_pos hc, if_pos hst]] at hr
    rcases List.mem_cons.mp hr with h | h
    · rw [h, finalizeRec_status]; exact hfb
    · exact ih hst r h ho
  | case11 raw rest base acc c tl hm hb hc newBase hst ih =>
    intro hp r hr ho
    have hfb : base.status = failedStr := hp
    rw [show runTests (some (base, acc)) (raw :: rest) =
        (finalizeRec base acc :: newBase :: (runTests none rest).1,
         finalizeRec base acc :: (runTests none rest).2) by
      simp only [runTests, hm]; rw [if_neg hb, if_pos hc, if_neg hst]] at hr
    rcases List.mem_cons.mp hr with h | h
    · rw [h, finalizeRec_status]; exact hfb
    · rcases List.mem_cons.mp h with h2 | h2
      · exact absurd (h2 ▸ mkRecord_output c tl) ho
      · exact ih trivial r h2 ho
  | case12 raw rest base acc c tl hm hb hc ih =>
    intro hp r hr
    rw [show runTests (some (base, acc)) (raw :: rest) =
        runTests (some (base, acc ++ [c :: tl])) rest by
      simp only [runTests, hm]; rw [if_neg hb, if_neg hc]] at hr
    exact ih hp r hr

/-- C9: in the Test Block Parser's result, a test record carries an
`output` field only when its status is "failed"; records with any other
status never have one. -/
theorem c9_output_only_failed (messages : List (List Char))
    (ts : List TestRecord)
    (hts : (parse_test_blocks messages).tests = some ts) :
    ∀ r ∈ ts, r.output ≠ none → r.status = failedStr := by
  unfold parse_test_blocks at hts
  cases h : lastHeaderIdxAux 0 none messages with
  | none => rw [h] at hts; simp [emptyTB] at hts
  | some i =>
    rw [h] at hts
    simp only [parseFrom] at hts
    split at hts
    · injection hts with hts
      subst hts
      exact runTests_output_failed none _ trivial
    · simp at hts

theorem c9_output_only_failed_witness :
    (⟨"caseB".toList, failedStr, none, some "boom".toList⟩ : TestRecord).status
      = failedStr :=
  c9_output_only_failed
    ["Test Results for demo:".toList, "✗ caseB".toList, "boom".toList]
    [⟨"caseB".toList, failedStr, none, some "boom".toList⟩]
    (by decide)
    ⟨"caseB".toList, failedStr, none, some "boom".toList⟩
    (by decide) (by decide)

/-- C10: the `failures` list of the Test Block Parser is exactly the
subsequence of the `tests` list consisting of the records whose status is
"failed", in the same relative order (absent fields read as empty lists). -/
theorem c10_failures_filter (messages : List (List Char)) :
    ((parse_test_blocks messages).failures).getD [] =
      (((parse_test_blocks messages).tests).getD []).filter
        (fun r => r.status = failedStr) := by
  unfold parse_test_blocks
  cases h : lastHeaderIdxAux 0 none messages with
  | none => simp [emptyTB]
  | some i =>
    simp only [parseFrom]
    have hcore := runTests_failures_filter none
      (parseSummary (messages.drop (i + 1)) []).2 trivial
    rw [hcore]
    by_cases h1 :
        (runTests none (parseSummary (messages.drop (i + 1)) []).2).1 = []
    · simp [h1]
    · rw [if_pos h1]
      by_cases h2 :
          ((runTests none (parseSummary (messages.drop (i + 1)) []).2).1).filter
            (fun r => r.status = failedStr) = []
      · simp [h2]
      · rw [if_pos h2]
        simp

/-- C1 counterexample: the claim says a non-blank line whose first
character is not a test-marker glyph and that does not begin with a
section-boundary prefix terminates test-line parsing, so that no later
test line reaches `tests`.  In the script such a line is merely skipped
(the loop has no terminating branch for it): after the boundary, the line
"zzz noise" is of exactly that kind, yet the test line after it is still
parsed into `tests`. -/
theorem c1_counterexample :
    pyLstrip "zzz noise".toList = 'z' :: "zz noise".toList ∧
    startsWithAny sectionBoundaries (pyLstrip "zzz noise".toList) = false ∧
    'z' ∉ testMarkers ∧
    (parse_test_blocks ["Test Results for demo:".toList,
      "Detailed Results:".toList, "zzz noise".toList,
      "✓ caseA".toList]).tests =
      some [⟨"caseA".toList, "passed".toList, none, none⟩] := by
  decide

/-- C1 (amended): after the summary/detailed-results boundary, a line
whose first non-blank character is not one of the three test-marker glyphs
and that does not begin with a section-boundary prefix is skipped without
effect: test-line parsing continues, and the parse of the remaining lines
is unchanged.  Only section-boundary lines (or the end of input)
terminate test-line parsing. -/
theorem c1_skip_line (raw : List Char) (rest : List (List Char)) (c : Char)
    (tl : List Char) (hm : pyLstrip raw = c :: tl)
    (hb : startsWithAny sectionBoundaries (c :: tl) = false)
    (hc : c ∉ testMarkers) :
    runTests none (raw :: rest) = runTests none rest := by
  simp only [runTests, hm]
  rw [if_neg (by simp [hb]), if_neg hc]

theorem c1_skip_line_witness :
    pyLstrip "zzz noise".toList = 'z' :: "zz noise".toList ∧
    startsWithAny sectionBoundaries ('z' :: "zz noise".toList) = false ∧
    'z' ∉ testMarkers ∧
    runTests none ["zzz noise".toList, "✓ caseA".toList] =
      runTests none ["✓ caseA".toList] :=
  ⟨by decide, by decide, by decide,
   c1_skip_line "zzz noise".toList ["✓ caseA".toList] 'z' "zz noise".toList
     (by decide) (by decide) (by decide)⟩

/-- C6: one step of summary-table parsing.  A blank line is skipped; a
line starting with `Detailed Results:` is consumed and stops summary
parsing; a line containing a colon stores the pair under the lower-cased
(stripped) key, the value being an integer when it parses as one and the
trimmed string otherwise; a non-blank line without a colon stops summary
parsing without being consumed. -/
theorem c6_summary_loop (raw : List Char) (rest : List (List Char))
    (acc : List (List Char × SVal)) :
    (pyLstrip raw = [] →
      parseSummary (raw :: rest) acc = parseSummary rest acc) ∧
    (startsWith detailedMarker (pyLstrip raw) = true →
      parseSummary (raw :: rest) acc = (acc, rest)) ∧
    (pyLstrip raw ≠ [] → startsWith detailedMarker (pyLstrip raw) = false →
      ':' ∈ pyLstrip raw →
      parseSummary (raw :: rest) acc = parseSummary rest
        (dictInsert acc
          (pyLower (pyStrip (splitFirstColon (pyLstrip raw)).1))
          (intOrStr (pyStrip (splitFirstColon (pyLstrip raw)).2)))) ∧
    (pyLstrip raw ≠ [] → startsWith detailedMarker (pyLstrip raw) = false →
      ':' ∉ pyLstrip raw →
      parseSummary (raw :: rest) acc = (acc, raw :: rest)) ∧
    (∀ v n, pyInt? v = some n → intOrStr v = SVal.int n) ∧
    (∀ v, pyInt? v = none → intOrStr v = SVal.str v) := by
  refine ⟨?_, ?_, ?_, ?_, ?_, ?_⟩
  · intro h
    simp [parseSummary, h]
  · intro h
    have hne : pyLstrip raw ≠ [] := by
      intro he
      rw [he] at h
      exact absurd h (by decide)
    simp only [parseSummary]
    rw [if_neg hne, if_pos h]
  · intro hne hd hcol
    simp only [parseSummary]
    rw [if_neg hne, if_neg (by simp [hd]), if_pos hcol]
  · intro hne hd hcol
    simp only [parseSummary]
    rw [if_neg hne, if_neg (by simp [hd]), if_neg hcol]
  · intro v n h
    unfold intOrStr
    rw [h]
  · intro v h
    unfold intOrStr
    rw [h]

theorem c6_summary_loop_witness :
    parseSummary ["   ".toList, "x".toList] [] = parseSummary ["x".toList] [] ∧
    parseSummary ["Detailed Results:".toList, "✓ a".toList] [] =
      ([], ["✓ a".toList]) ∧
    parseSummary ["Total: 5".toList, "x".toList] [] = parseSummary ["x".toList]
      (dictInsert []
        (pyLower (pyStrip (splitFirstColon (pyLstrip "Total: 5".toList)).1))
        (intOrStr (pyStrip (splitFirstColon (pyLstrip "Total: 5".toList)).2))) ∧
    parseSummary ["plain".toList, "x".toList] [] =
      ([], ["plain".toList, "x".toList]) ∧
    intOrStr "5".toList = SVal.int 5 ∧
    intOrStr "5a".toList = SVal.str "5a".toList :=
  ⟨(c6_summary_loop "   ".toList ["x".toList] []).1 (by decide),
   (c6_summary_loop "Detailed Results:".toList ["✓ a".toList] []).2.1
     (by decide),
   (c6_summary_loop "Total: 5".toList ["x".toList] []).2.2.1
     (by decide) (by decide) (by decide),
   (c6_summary_loop "plain".toList ["x".toList] []).2.2.2.1
     (by decide) (by decide) (by decide),
   (c6_summary_loop [] [] []).2.2.2.2.1 "5".toList 5 (by decide),
   (c6_summary_loop [] [] []).2.2.2.2.2 "5a".toList (by decide)⟩

/-- C7: the reason derived for a succeeded entry.  With a nonempty summary
whose `failed` value is the integer 0: "All tests passed (P of T)." when
both `passed` and `total` are present, "All tests passed (P)." when only
`passed` is, "All tests passed." when `passed` is absent.  Without such a
summary: "All tests completed without failures." when tests were parsed,
"Completed without reported failures." otherwise. -/
theorem c7_success_reason (ti : TBResult) :
    (ti.test_summary.getD [] ≠ [] →
     dictGet (ti.test_summary.getD []) "failed".toList = some (SVal.int 0) →
     (∀ t p, dictGet (ti.test_summary.getD []) "total".toList = some t →
        dictGet (ti.test_summary.getD []) "passed".toList = some p →
        succeededReason ti = "All tests passed (".toList ++ svalRepr p ++
          " of ".toList ++ svalRepr t ++ ").".toList) ∧
     (∀ p, dictGet (ti.test_summary.getD []) "total".toList = none →
        dictGet (ti.test_summary.getD []) "passed".toList = some p →
        succeededReason ti = "All tests passed (".toList ++ svalRepr p ++
          ").".toList) ∧
     (dictGet (ti.test_summary.getD []) "passed".toList = none →
        succeededReason ti = "All tests passed.".toList)) ∧
    (¬ (ti.test_summary.getD [] ≠ [] ∧
        dictGet (ti.test_summary.getD []) "failed".toList =
          some (SVal.int 0)) →
     (ti.tests.getD [] ≠ [] →
        succeededReason ti = "All tests completed without failures.".toList) ∧
     (ti.tests.getD [] = [] →
        succeededReason ti = "Completed without reported failures.".toList)) := by
  constructor
  · intro hne hf
    refine ⟨?_, ?_, ?_⟩
    · intro t p ht hp
      unfold succeededReason
      rw [if_pos ⟨hne, hf⟩, ht, hp]
    · intro p ht hp
      unfold succeededReason
      rw [if_pos ⟨hne, hf⟩, ht, hp]
    · intro hp
      unfold succeededReason
      rw [if_pos ⟨hne, hf⟩, hp]
      cases ht : dictGet (ti.test_summary.getD []) "total".toList <;> rfl
  · intro hcond
    constructor
    · intro hts
      unfold succeededReason
      rw [if_neg hcond, if_pos hts]
    · intro hts
      unfold succeededReason
      rw [if_neg hcond, if_neg (by simp [hts])]

theorem c7_success_reason_witness :
    succeededReason ⟨none, some [("failed".toList, SVal.int 0),
        ("total".toList, SVal.int 3), ("passed".toList, SVal.int 2)],
        none, none⟩ =
      "All tests passed (".toList ++ svalRepr (SVal.int 2) ++ " of ".toList ++
        svalRepr (SVal.int 3) ++ ").".toList ∧
    succeededReason ⟨none, some [("failed".toList, SVal.int 0),
        ("passed".toList, SVal.int 2)], none, none⟩ =
      "All tests passed (".toList ++ svalRepr (SVal.int 2) ++ ").".toList ∧
    succeededReason ⟨none, some [("failed".toList, SVal.int 0)], none, none⟩ =
      "All tests passed.".toList ∧
    succeededReason ⟨none, none,
        some [⟨"a".toList, "passed".toList, none, none⟩], none⟩ =
      "All tests completed without failures.".toList ∧
    succeededReason ⟨none, none, none, none⟩ =
      "Completed without reported failures.".toList :=
  ⟨((c7_success_reason ⟨none, some [("failed".toList, SVal.int 0),
        ("total".toList, SVal.int 3), ("passed".toList, SVal.int 2)],
        none, none⟩).1 (by decide) (by decide)).1 (SVal.int 3) (SVal.int 2)
      (by decide) (by decide),
   ((c7_success_reason ⟨none, some [("failed".toList, SVal.int 0),
        ("passed".toList, SVal.int 2)], none, none⟩).1 (by decide)
      (by decide)).2.1 (SVal.int 2) (by decide) (by decide),
   ((c7_success_reason ⟨none, some [("failed".toList, SVal.int 0)],
        none, none⟩).1 (by decide) (by decide)).2.2 (by decide),
   ((c7_success_reason ⟨none, none,
        some [⟨"a".toList, "passed".toList, none, none⟩], none⟩).2
      (by decide)).1 (by decide),
   ((c7_success_reason ⟨none, none, none, none⟩).2 (by decide)).2 (by decide)⟩

theorem lastHeaderIdxAux_no_header (post : List (List Char))
    (hp : ∀ m ∈ post, startsWith hdrMarker (pyLstrip m) = false) :
    ∀ k acc, lastHeaderIdxAux k acc post = acc := by
  induction post with
  | nil => intro k acc; rfl
  | cons m rest ih =>
    intro k acc
    have hm := hp m (by simp)
    simp only [lastHeaderIdxAux, hm]
    exact ih (fun x hx => hp x (by simp [hx])) (k + 1) acc

theorem lastHeaderIdxAux_append (pre : List (List Char)) (h : List Char)
    (post : List (List Char))
    (hh : startsWith hdrMarker (pyLstrip h) = true)
    (hp : ∀ m ∈ post, startsWith hdrMarker (pyLstrip m) = false) :
    ∀ k acc, lastHeaderIdxAux k acc (pre ++ h :: post) = some (k + pre.length) := by
  induction pre with
  | nil =>
    intro k acc
    simp only [List.nil_append, lastHeaderIdxAux, hh, if_true]
    rw [lastHeaderIdxAux_no_header post hp]
    simp
  | cons m pre ih =>
    intro k acc
    simp only [List.cons_append, lastHeaderIdxAux, List.append_eq]
    rw [ih (k + 1) _]
    congr 1
    simp only [List.length_cons]
    omega

theorem getD_append_len (pre : List (List Char)) (h : List Char)
    (post : List (List Char)) :
    (pre ++ h :: post).getD pre.length [] = h := by
  induction pre with
  | nil => rfl
  | cons m pre ih => simpa using ih

theorem drop_append_len (pre : List (List Char)) (h : List Char)
    (post : List (List Char)) :
    (pre ++ h :: post).drop (pre.length + 1) = post := by
  induction pre with
  | nil => simp
  | cons m pre ih => simp [ih]

/-- C4: the whole test-block result is computed from the last line whose
left-stripped text starts with `Test Results for` and the lines after it;
any earlier lines (including earlier test-report sections) contribute
nothing. -/
theorem c4_last_header_wins (pre : List (List Char)) (h : List Char)
    (post : List (List Char))
    (hh : startsWith hdrMarker (pyLstrip h) = true)
    (hp : ∀ m ∈ post, startsWith hdrMarker (pyLstrip m) = false)
    (hpre : ∃ m ∈ pre, startsWith hdrMarker (pyLstrip m) = true) :
    parse_test_blocks (pre ++ h :: post) = parse_test_blocks (h :: post) := by
  clear hpre
  unfold parse_test_blocks
  rw [lastHeaderIdxAux_append pre h post hh hp 0 none]
  rw [show lastHeaderIdxAux 0 none (h :: post) = some 0 by
    simpa using lastHeaderIdxAux_append [] h post hh hp 0 none]
  simp only [Nat.zero_add]
  rw [getD_append_len pre h post, drop_append_len pre h post]
  rfl

theorem c4_last_header_wins_witness :
    parse_test_blocks (["Test Results for old:".toList, "✗ caseZ".toList] ++
        "Test Results for demo:".toList :: ["✓ caseA".toList]) =
      parse_test_blocks ("Test Results for demo:".toList ::
        ["✓ caseA".toList]) :=
  c4_last_header_wins ["Test Results for old:".toList, "✗ caseZ".toList]
    "Test Results for demo:".toList ["✓ caseA".toList]
    (by decide) (by decide) (by decide)

/-- C3: with at least one error position, the Failure Context Collector
depends only on the first position `i`; it filters the up-to-30 messages
preceding `i`, dropping blank lines and lines starting with the noise
prefixes; an empty filtered window yields no context; otherwise it keeps
the last 20 filtered lines, the reason is the first line from the end
whose lower-cased text contains a failure keyword (else the last line),
and the output is the 20-line window joined with newlines, trimmed and
clamped. -/
theorem c3_failure_context (messages : List (List Char)) (i : Nat)
    (tl : List Nat) :
    collect_failure_context messages (i :: tl) =
      collect_failure_context messages [i] ∧
    (((messages.take i).drop (i - 30)).filter
        (fun m => !m.isEmpty && !startsWithAny noisePrefixes m) = [] →
      collect_failure_context messages (i :: tl) = none) ∧
    (((messages.take i).drop (i - 30)).filter
        (fun m => !m.isEmpty && !startsWithAny noisePrefixes m) ≠ [] →
      collect_failure_context messages (i :: tl) =
        some
          (((((messages.take i).drop (i - 30)).filter
              (fun m => !m.isEmpty && !startsWithAny noisePrefixes m)).drop
              ((((messages.take i).drop (i - 30)).filter
                (fun m => !m.isEmpty && !startsWithAny noisePrefixes m)).length
                - 20) |>.reverse.find? (fun l =>
                  failureKeywords.any (fun k =>
                    containsSub k (pyLower l)))).getD
            ((((messages.take i).drop (i - 30)).filter
              (fun m => !m.isEmpty && !startsWithAny noisePrefixes m)).drop
              ((((messages.take i).drop (i - 30)).filter
                (fun m => !m.isEmpty && !startsWithAny noisePrefixes m)).length
                - 20) |>.getLastD []),
          clamp_text (pyStrip (joinNL
            ((((messages.take i).drop (i - 30)).filter
              (fun m => !m.isEmpty && !startsWithAny noisePrefixes m)).drop
              ((((messages.take i).drop (i - 30)).filter
                (fun m => !m.isEmpty && !startsWithAny noisePrefixes m)).length
                - 20)))) MAX_OUTPUT_CHARS)) := by
  refine ⟨rfl, ?_, ?_⟩
  · intro h
    simp [collect_failure_context, h]
  · intro h
    simp only [collect_failure_context]
    rw [if_neg (by simpa using h)]

theorem c3_failure_context_witness :
    collect_failure_context ["a denied".toList, "b".toList,
        "##[error] x".toList] (2 :: [7]) =
      collect_failure_context ["a denied".toList, "b".toList,
        "##[error] x".toList] [2] ∧
    collect_failure_context ["env: x".toList, "##[error] x".toList]
      (1 :: []) = none ∧
    collect_failure_context ["a denied".toList, "b".toList,
        "##[error] x".toList] (2 :: [7]) =
      some ("a denied".toList, "a denied\nb".toList) :=
  ⟨(c3_failure_context ["a denied".toList, "b".toList,
      "##[error] x".toList] 2 [7]).1,
   (c3_failure_context ["env: x".toList, "##[error] x".toList] 1 []).2.1
     (by decide),
   by
     have := (c3_failure_context ["a denied".toList, "b".toList,
       "##[error] x".toList] 2 [7]).2.2 (by decide)
     rw [this]
     decide⟩
